import Mathlib

/-!
Verification of the `app_biance` repository: a shallow embedding in Lean 4 of
the bank-name resolver (`src/module/generate_qrcode.py`) and the per-day
transaction store (`src/module/transaction_storage.py`), together with
theorems settling the specification claims.

Modelling conventions:
* Python dicts are association lists in insertion order (Python 3.7+ dicts
  iterate in insertion order); `dict.get(k, d)` becomes `Option.getD`.
  A JSON value that is absent and a JSON `null` are both modelled as `none`.
* Machine floats returned by `rapidfuzz` scorers are modelled as exact
  rationals (`ℚ`); the scores produced by the code are small exact fractions,
  so no rounding behaviour is lost.
* File-system state is passed explicitly (a function from dates to day-file
  contents, or a list of day files in enumeration order).
* Unicode NFKD decomposition, combining-mark classification and full
  lowercasing are library functions (`unicodedata`, `str.lower`); they are
  modelled by finite tables covering ASCII and the Vietnamese precomposed
  letters this program works with, and the identity elsewhere.
-/

namespace AppBiance

/-! ## Unicode model: NFKD fragment, combining marks, full lowercasing -/

/-- Fragment of Unicode canonical (NFKD) decomposition: the Vietnamese
precomposed letters, mapped to base letter plus combining marks in canonical
order.  Characters outside the table decompose to themselves. -/
def nfkdTable : List (Char × List Char) := [
  ('à', ['a', '̀']), ('á', ['a', '́']), ('ả', ['a', '̉']),
  ('ã', ['a', '̃']), ('ạ', ['a', '̣']),
  ('ă', ['a', '̆']), ('ằ', ['a', '̆', '̀']),
  ('ắ', ['a', '̆', '́']), ('ẳ', ['a', '̆', '̉']),
  ('ẵ', ['a', '̆', '̃']), ('ặ', ['a', '̣', '̆']),
  ('â', ['a', '̂']), ('ầ', ['a', '̂', '̀']),
  ('ấ', ['a', '̂', '́']), ('ẩ', ['a', '̂', '̉']),
  ('ẫ', ['a', '̂', '̃']), ('ậ', ['a', '̣', '̂']),
  ('è', ['e', '̀']), ('é', ['e', '́']), ('ẻ', ['e', '̉']),
  ('ẽ', ['e', '̃']), ('ẹ', ['e', '̣']),
  ('ê', ['e', '̂']), ('ề', ['e', '̂', '̀']),
  ('ế', ['e', '̂', '́']), ('ể', ['e', '̂', '̉']),
  ('ễ', ['e', '̂', '̃']), ('ệ', ['e', '̣', '̂']),
  ('ì', ['i', '̀']), ('í', ['i', '́']), ('ỉ', ['i', '̉']),
  ('ĩ', ['i', '̃']), ('ị', ['i', '̣']),
  ('ò', ['o', '̀']), ('ó', ['o', '́']), ('ỏ', ['o', '̉']),
  ('õ', ['o', '̃']), ('ọ', ['o', '̣']),
  ('ô', ['o', '̂']), ('ồ', ['o', '̂', '̀']),
  ('ố', ['o', '̂', '́']), ('ổ', ['o', '̂', '̉']),
  ('ỗ', ['o', '̂', '̃']), ('ộ', ['o', '̣', '̂']),
  ('ơ', ['o', '̛']), ('ờ', ['o', '̛', '̀']),
  ('ớ', ['o', '̛', '́']), ('ở', ['o', '̛', '̉']),
  ('ỡ', ['o', '̛', '̃']), ('ợ', ['o', '̛', '̣']),
  ('ù', ['u', '̀']), ('ú', ['u', '́']), ('ủ', ['u', '̉']),
  ('ũ', ['u', '̃']), ('ụ', ['u', '̣']),
  ('ư', ['u', '̛']), ('ừ', ['u', '̛', '̀']),
  ('ứ', ['u', '̛', '́']), ('ử', ['u', '̛', '̉']),
  ('ữ', ['u', '̛', '̃']), ('ự', ['u', '̛', '̣']),
  ('ỳ', ['y', '̀']), ('ý', ['y', '́']), ('ỷ', ['y', '̉']),
  ('ỹ', ['y', '̃']), ('ỵ', ['y', '̣']),
  ('À', ['A', '̀']), ('Á', ['A', '́']), ('Ả', ['A', '̉']),
  ('Ã', ['A', '̃']), ('Ạ', ['A', '̣']),
  ('Ă', ['A', '̆']), ('Ằ', ['A', '̆', '̀']),
  ('Ắ', ['A', '̆', '́']), ('Ẳ', ['A', '̆', '̉']),
  ('Ẵ', ['A', '̆', '̃']), ('Ặ', ['A', '̣', '̆']),
  ('Â', ['A', '̂']), ('Ầ', ['A', '̂', '̀']),
  ('Ấ', ['A', '̂', '́']), ('Ẩ', ['A', '̂', '̉']),
  ('Ẫ', ['A', '̂', '̃']), ('Ậ', ['A', '̣', '̂']),
  ('È', ['E', '̀']), ('É', ['E', '́']), ('Ẻ', ['E', '̉']),
  ('Ẽ', ['E', '̃']), ('Ẹ', ['E', '̣']),
  ('Ê', ['E', '̂']), ('Ề', ['E', '̂', '̀']),
  ('Ế', ['E', '̂', '́']), ('Ể', ['E', '̂', '̉']),
  ('Ễ', ['E', '̂', '̃']), ('Ệ', ['E', '̣', '̂']),
  ('Ì', ['I', '̀']), ('Í', ['I', '́']), ('Ỉ', ['I', '̉']),
  ('Ĩ', ['I', '̃']), ('Ị', ['I', '̣']),
  ('Ò', ['O', '̀']), ('Ó', ['O', '́']), ('Ỏ', ['O', '̉']),
  ('Õ', ['O', '̃']), ('Ọ', ['O', '̣']),
  ('Ô', ['O', '̂']), ('Ồ', ['O', '̂', '̀']),
  ('Ố', ['O', '̂', '́']), ('Ổ', ['O', '̂', '̉']),
  ('Ỗ', ['O', '̂', '̃']), ('Ộ', ['O', '̣', '̂']),
  ('Ơ', ['O', '̛']), ('Ờ', ['O', '̛', '̀']),
  ('Ớ', ['O', '̛', '́']), ('Ở', ['O', '̛', '̉']),
  ('Ỡ', ['O', '̛', '̃']), ('Ợ', ['O', '̛', '̣']),
  ('Ù', ['U', '̀']), ('Ú', ['U', '́']), ('Ủ', ['U', '̉']),
  ('Ũ', ['U', '̃']), ('Ụ', ['U', '̣']),
  ('Ư', ['U', '̛']), ('Ừ', ['U', '̛', '̀']),
  ('Ứ', ['U', '̛', '́']), ('Ử', ['U', '̛', '̉']),
  ('Ữ', ['U', '̛', '̃']), ('Ự', ['U', '̛', '̣']),
  ('Ỳ', ['Y', '̀']), ('Ý', ['Y', '́']), ('Ỷ', ['Y', '̉']),
  ('Ỹ', ['Y', '̃']), ('Ỵ', ['Y', '̣'])]

/-- The combining marks produced by `nfkdTable` (the marks
`unicodedata.combining` reports as nonzero for Vietnamese text). -/
def combiningMarks : List Char :=
  ['̀', '́', '̂', '̃', '̆', '̉', '̛', '̣']

/-- NFKD decomposition of one character (identity outside the table). -/
def nfkdChar (c : Char) : List Char := (List.lookup c nfkdTable).getD [c]

/-- `unicodedata.combining(c) != 0`, on the modelled fragment. -/
def combining (c : Char) : Bool := combiningMarks.contains c

/-- Full-Unicode lowercasing (`str.lower`) on the modelled fragment:
ASCII letters plus the Vietnamese letter Đ (which NFKD does not decompose). -/
def lowerTable : List (Char × Char) := [
  ('A', 'a'), ('B', 'b'), ('C', 'c'), ('D', 'd'), ('E', 'e'), ('F', 'f'),
  ('G', 'g'), ('H', 'h'), ('I', 'i'), ('J', 'j'), ('K', 'k'), ('L', 'l'),
  ('M', 'm'), ('N', 'n'), ('O', 'o'), ('P', 'p'), ('Q', 'q'), ('R', 'r'),
  ('S', 's'), ('T', 't'), ('U', 'u'), ('V', 'v'), ('W', 'w'), ('X', 'x'),
  ('Y', 'y'), ('Z', 'z'), ('Đ', 'đ')]

/-- One character of `str.lower` (identity outside the table). -/
def toLowerFull (c : Char) : Char := (List.lookup c lowerTable).getD c

/-- The character pipeline of `normalize_text` (generate_qrcode.py lines
101-103): NFKD-decompose, drop combining marks, lowercase, drop spaces. -/
def normalizeChars (l : List Char) : List Char :=
  ((((l.flatMap nfkdChar).filter (fun c => !combining c)).map toLowerFull).filter
    (fun c => c != ' '))

/-- `normalize_text` (generate_qrcode.py lines 97-103).  The argument is an
`Option` because Python passes `None` through the same falsy check as the
empty string (`if not text: return ""`). -/
def normalize_text (text : Option String) : String :=
  match text with
  | none => ""
  | some t => if t = "" then "" else String.mk (normalizeChars t.data)

/-! ### Idempotence of `normalize_text` (claim C8) -/

/-- A character that every stage of `normalizeChars` leaves alone. -/
def stableChar (c : Char) : Bool :=
  nfkdChar c == [c] && !combining c && toLowerFull c == c && c != ' '

theorem lookup_mem {β : Type} {a : Char} {b : β} :
    ∀ {l : List (Char × β)}, List.lookup a l = some b → (a, b) ∈ l := by
  intro l
  induction l with
  | nil => intro h; simp [List.lookup] at h
  | cons p ps ih =>
    intro h
    rw [List.lookup] at h
    by_cases hak : a = p.1
    · subst hak
      simp at h
      subst h
      exact List.mem_cons_self _ _
    · have : (a == p.1) = false := beq_false_of_ne hak
      rw [this] at h
      exact List.mem_cons_of_mem _ (ih h)

set_option maxRecDepth 40000 in
theorem nfkd_outputs_irreducible :
    ∀ p ∈ nfkdTable, ∀ d ∈ p.2, List.lookup d nfkdTable = none := by decide

theorem lower_outputs_stable :
    ∀ p ∈ lowerTable, stableChar p.2 = true := by decide

theorem nfkdChar_out_lookup_none {c d : Char} (hd : d ∈ nfkdChar c) :
    List.lookup d nfkdTable = none := by
  unfold nfkdChar at hd
  cases h : List.lookup c nfkdTable with
  | none => rw [h] at hd; simp at hd; subst hd; exact h
  | some out =>
    rw [h] at hd
    exact nfkd_outputs_irreducible (c, out) (lookup_mem h) d hd

theorem stableChar_toLowerFull {d : Char} (h1 : List.lookup d nfkdTable = none)
    (h2 : combining d = false) (h3 : toLowerFull d ≠ ' ') :
    stableChar (toLowerFull d) = true := by
  unfold toLowerFull at *
  cases h : List.lookup d lowerTable with
  | some e =>
    simpa using lower_outputs_stable (d, e) (lookup_mem h)
  | none =>
    rw [h] at h3
    simp only [Option.getD_none] at h3 ⊢
    simp [stableChar, nfkdChar, toLowerFull, h1, h2, h, h3]

theorem mem_normalizeChars_stable {l : List Char} :
    ∀ e ∈ normalizeChars l, stableChar e = true := by
  intro e he
  unfold normalizeChars at he
  rw [List.mem_filter] at he
  obtain ⟨hmem, hsp⟩ := he
  rw [List.mem_map] at hmem
  obtain ⟨d, hd, rfl⟩ := hmem
  rw [List.mem_filter] at hd
  obtain ⟨hdmem, hcomb⟩ := hd
  rw [List.mem_flatMap] at hdmem
  obtain ⟨c, _, hdc⟩ := hdmem
  refine stableChar_toLowerFull (nfkdChar_out_lookup_none hdc) ?_ ?_
  · simpa using hcomb
  · intro hEq
    rw [hEq] at hsp
    simp at hsp

theorem normalizeChars_stable_id {l : List Char}
    (h : ∀ e ∈ l, stableChar e = true) : normalizeChars l = l := by
  induction l with
  | nil => rfl
  | cons c t ih =>
    have hc := h c (List.mem_cons_self _ _)
    have ht := fun e he => h e (List.mem_cons_of_mem _ he)
    unfold stableChar at hc
    simp only [Bool.and_eq_true, beq_iff_eq, Bool.not_eq_true', bne_iff_ne,
      ne_eq] at hc
    obtain ⟨⟨⟨hnf, hcomb⟩, hlow⟩, hsp⟩ := hc
    unfold normalizeChars
    rw [List.flatMap_cons, List.filter_append, List.map_append,
      List.filter_append]
    have : (([c].filter (fun x => !combining x)).map toLowerFull).filter
        (fun x => x != ' ') = [c] := by
      simp [hnf, hcomb, hlow, hsp]
    rw [hnf, this]
    have hih := ih ht
    unfold normalizeChars at hih
    rw [hih]
    rfl

/-- C8: `normalize` is idempotent — `normalize(normalize(x)) == normalize(x)`
for every string `x` — and empty or absent input normalizes to the empty
string. -/
theorem normalize_some {x : String} (hx : x ≠ "") :
    normalize_text (some x) = String.mk (normalizeChars x.data) := by
  rw [normalize_text]
  exact if_neg hx

theorem c8_normalize_idempotent (x : String) :
    normalize_text (some (normalize_text (some x))) = normalize_text (some x) ∧
    normalize_text none = "" ∧ normalize_text (some "") = "" := by
  refine ⟨?_, rfl, rfl⟩
  by_cases hx : x = ""
  · subst hx; rfl
  · rw [normalize_some hx]
    by_cases hnil : normalizeChars x.data = []
    · rw [hnil]
      rfl
    · have hne : String.mk (normalizeChars x.data) ≠ "" := by
        intro hcon
        apply hnil
        have hdata : (String.mk (normalizeChars x.data)).data = ("" : String).data := by
          rw [hcon]
        simpa using hdata
      rw [normalize_some hne]
      show String.mk (normalizeChars (normalizeChars x.data)) =
        String.mk (normalizeChars x.data)
      rw [normalizeChars_stable_id (fun e he => mem_normalizeChars_stable e he)]

/-! ## Transaction store (`src/module/transaction_storage.py`)

A day file holds a JSON array of transaction records.  A record is modelled
by its `order_number` and `order_status` fields (the only fields the store's
control flow reads) plus an opaque `payload` standing for all the other
fields of the dict; `none` models an absent field. -/

structure Transaction where
  order_number : Option String
  order_status : Option String
  payload : String
deriving DecidableEq, Repr

/-- The duplicate-order search loop of `save_transaction`
(transaction_storage.py lines 78-82): first index whose record has
`order_number` equal to the given (truthy) order number. -/
def find_order_idx (s : String) : List Transaction → Option Nat
  | [] => none
  | t :: ts =>
    if t.order_number == some s then some 0
    else (find_order_idx s ts).map (· + 1)

/-- `existing_index` of `save_transaction` (lines 74-82): `None` unless the
incoming record's `order_number` is truthy (present and non-empty). -/
def existing_index (transactions : List Transaction)
    (order_number : Option String) : Option Nat :=
  match order_number with
  | none => none
  | some s => if s = "" then none else find_order_idx s transactions

/-- The day-file update of `save_transaction` (lines 74-95): replace in
place when a truthy `order_number` already occurs, else append.  The
incoming record is the fully prepared `transaction_info` (timestamp
selection, `order_status` override and QR-file bookkeeping happen before
this point and only mutate the record's own fields). -/
def save_transaction (transactions : List Transaction)
    (transaction_info : Transaction) : List Transaction :=
  match existing_index transactions transaction_info.order_number with
  | some i => transactions.set i transaction_info
  | none => transactions ++ [transaction_info]

/-- The non-empty `order_number` values of a day file, in order. -/
def truthyOrders (l : List Transaction) : List String :=
  (l.filterMap (fun t => t.order_number)).filter (fun s => s != "")

theorem find_order_idx_none {s : String} :
    ∀ {l : List Transaction}, find_order_idx s l = none →
      ∀ t ∈ l, t.order_number ≠ some s := by
  intro l
  induction l with
  | nil => intro _ t ht; cases ht
  | cons a as ih =>
    intro h t ht
    rw [find_order_idx] at h
    by_cases ha : a.order_number = some s
    · rw [if_pos (by simpa using ha)] at h
      cases h
    · rw [if_neg (by simpa using ha)] at h
      rcases List.mem_cons.mp ht with rfl | hmem
      · exact ha
      · exact ih (by simpa using h) t hmem

theorem mem_truthyOrders {l : List Transaction} {s : String} :
    s ∈ truthyOrders l ↔ (∃ t ∈ l, t.order_number = some s) ∧ s ≠ "" := by
  unfold truthyOrders
  rw [List.mem_filter, List.mem_filterMap]
  simp

theorem truthyOrders_cons_none {a : Transaction} (l : List Transaction)
    (h : a.order_number = none) : truthyOrders (a :: l) = truthyOrders l := by
  unfold truthyOrders
  simp [List.filterMap_cons, h]

theorem truthyOrders_cons_empty {a : Transaction} (l : List Transaction)
    (h : a.order_number = some "") : truthyOrders (a :: l) = truthyOrders l := by
  unfold truthyOrders
  simp [List.filterMap_cons, h]

theorem truthyOrders_cons_some {a : Transaction} {s : String}
    (l : List Transaction) (h : a.order_number = some s) (hs : s ≠ "") :
    truthyOrders (a :: l) = s :: truthyOrders l := by
  unfold truthyOrders
  simp [List.filterMap_cons, h, List.filter_cons, hs]

theorem truthyOrders_append (l l' : List Transaction) :
    truthyOrders (l ++ l') = truthyOrders l ++ truthyOrders l' := by
  unfold truthyOrders
  rw [List.filterMap_append, List.filter_append]

theorem save_transaction_set {l : List Transaction} {t : Transaction}
    {i : Nat} (h : existing_index l t.order_number = some i) :
    save_transaction l t = l.set i t := by
  unfold save_transaction
  rw [h]

theorem save_transaction_append {l : List Transaction} {t : Transaction}
    (h : existing_index l t.order_number = none) :
    save_transaction l t = l ++ [t] := by
  unfold save_transaction
  rw [h]

theorem truthyOrders_set_same {s : String} {t : Transaction}
    (ht : t.order_number = some s) :
    ∀ {l : List Transaction} {i : Nat}, find_order_idx s l = some i →
      truthyOrders (l.set i t) = truthyOrders l := by
  intro l
  induction l with
  | nil => intro i h; cases h
  | cons a as ih =>
    intro i h
    rw [find_order_idx] at h
    by_cases ha : a.order_number = some s
    · rw [if_pos (by simpa using ha)] at h
      cases h
      rw [List.set_cons_zero]
      by_cases hs : s = ""
      · subst hs
        rw [truthyOrders_cons_empty as ht, truthyOrders_cons_empty as ha]
      · rw [truthyOrders_cons_some as ht hs, truthyOrders_cons_some as ha hs]
    · rw [if_neg (by simpa using ha)] at h
      cases hj : find_order_idx s as with
      | none => rw [hj] at h; cases h
      | some j =>
        rw [hj] at h
        cases h
        rw [List.set_cons_succ]
        cases hao : a.order_number with
        | none =>
          rw [truthyOrders_cons_none _ hao, truthyOrders_cons_none _ hao, ih hj]
        | some u =>
          by_cases hu : u = ""
          · subst hu
            rw [truthyOrders_cons_empty _ hao, truthyOrders_cons_empty _ hao,
              ih hj]
          · rw [truthyOrders_cons_some _ hao hu, truthyOrders_cons_some _ hao hu,
              ih hj]

/-- C3: on a day file whose non-empty `orderNumber` values are unique,
`save_transaction` preserves that uniqueness, for any incoming record: a
save whose truthy `orderNumber` matches an existing entry replaces it in
place instead of adding a new one.  (Records whose `order_number` is absent
or empty carry no `orderNumber` value; they are always appended, see C9.) -/
theorem c3_save_preserves_unique_orders (l : List Transaction)
    (t : Transaction) (h : (truthyOrders l).Nodup) :
    (truthyOrders (save_transaction l t)).Nodup := by
  cases hord : t.order_number with
  | none =>
    rw [save_transaction_append (by rw [hord]; rfl), truthyOrders_append,
      truthyOrders_cons_none _ hord]
    simpa [truthyOrders] using h
  | some s =>
    by_cases hs : s = ""
    · subst hs
      rw [save_transaction_append (by rw [hord]; rfl), truthyOrders_append,
        truthyOrders_cons_empty _ hord]
      simpa [truthyOrders] using h
    · cases hidx : find_order_idx s l with
      | none =>
        rw [save_transaction_append
          (by rw [hord]; show (if s = "" then none else find_order_idx s l) = none
              rw [if_neg hs, hidx])]
        rw [truthyOrders_append, truthyOrders_cons_some _ hord hs]
        have hnotmem : s ∉ truthyOrders l := by
          rw [mem_truthyOrders]
          rintro ⟨⟨u, hu, huord⟩, -⟩
          exact find_order_idx_none hidx u hu huord
        simp only [truthyOrders, List.filterMap_nil, List.filter_nil]
        rw [List.nodup_append]
        refine ⟨h, List.nodup_singleton s, ?_⟩
        intro x hx hxs
        rw [List.mem_singleton] at hxs
        subst hxs
        exact hnotmem hx
      | some i =>
        rw [save_transaction_set
          (by rw [hord]; show (if s = "" then none else find_order_idx s l) = some i
              rw [if_neg hs, hidx])]
        rw [truthyOrders_set_same hord hidx]
        exact h

/-- C3 witness data. -/
def txA : Transaction := ⟨some "A1", none, "first"⟩

def txB : Transaction := ⟨some "B2", none, "second"⟩

def txA2 : Transaction := ⟨some "A1", some "PAID", "updated"⟩

theorem c3_save_preserves_unique_orders_witness :
    (truthyOrders [txA, txB]).Nodup ∧
      (truthyOrders (save_transaction [txA, txB] txA2)).Nodup :=
  ⟨by decide, c3_save_preserves_unique_orders [txA, txB] txA2 (by decide)⟩

theorem find_order_idx_first {s : String} {t : Transaction}
    (ht : t.order_number = some s) :
    ∀ (pre : List Transaction) (post : List Transaction),
      (∀ u ∈ pre, u.order_number ≠ some s) →
      find_order_idx s (pre ++ t :: post) = some pre.length := by
  intro pre
  induction pre with
  | nil =>
    intro post _
    rw [List.nil_append, find_order_idx, if_pos (by simpa using ht)]
    rfl
  | cons a as ih =>
    intro post hpre
    have ha : a.order_number ≠ some s := hpre a (List.mem_cons_self _ _)
    rw [List.cons_append, find_order_idx, if_neg (by simpa using ha),
      ih post (fun u hu => hpre u (List.mem_cons_of_mem _ hu))]
    rfl

theorem set_filter_single {s : String} {t : Transaction}
    (ht : t.order_number = some s) :
    ∀ {l : List Transaction} {i : Nat}, find_order_idx s l = some i →
      (l.filter (fun r => r.order_number == some s)).length ≤ 1 →
      (l.set i t).filter (fun r => r.order_number == some s) = [t] := by
  intro l
  induction l with
  | nil => intro i h; cases h
  | cons a as ih =>
    intro i h hlen
    rw [find_order_idx] at h
    by_cases ha : a.order_number = some s
    · rw [if_pos (by simpa using ha)] at h
      cases h
      rw [List.set_cons_zero, List.filter_cons, if_pos (by simpa using ht)]
      rw [List.filter_cons, if_pos (by simpa using ha), List.length_cons] at hlen
      have hnil : as.filter (fun r => r.order_number == some s) = [] := by
        refine List.eq_nil_of_length_eq_zero ?_
        omega
      rw [hnil]
    · rw [if_neg (by simpa using ha)] at h
      cases hj : find_order_idx s as with
      | none => rw [hj] at h; cases h
      | some j =>
        rw [hj] at h
        cases h
        rw [List.set_cons_succ, List.filter_cons, if_neg (by simpa using ha)]
        rw [List.filter_cons, if_neg (by simpa using ha)] at hlen
        exact ih hj hlen

theorem count_le_one_of_nodup {l : List Transaction} {s : String}
    (hs : s ≠ "") (h : (truthyOrders l).Nodup) :
    (l.filter (fun r => r.order_number == some s)).length ≤ 1 := by
  induction l with
  | nil => simp
  | cons a as ih =>
    have htail : (truthyOrders as).Nodup := by
      cases hord : a.order_number with
      | none => rwa [truthyOrders_cons_none _ hord] at h
      | some u =>
        by_cases hu : u = ""
        · subst hu
          rwa [truthyOrders_cons_empty _ hord] at h
        · rw [truthyOrders_cons_some _ hord hu] at h
          exact h.of_cons
    rw [List.filter_cons]
    by_cases ha : a.order_number = some s
    · rw [if_pos (by simpa using ha)]
      rw [truthyOrders_cons_some _ ha hs] at h
      have hnot : s ∉ truthyOrders as := (List.nodup_cons.mp h).1
      have : as.filter (fun r => r.order_number == some s) = [] := by
        rw [List.filter_eq_nil_iff]
        intro u hu
        simp only [beq_iff_eq]
        intro hcon
        exact hnot (mem_truthyOrders.mpr ⟨⟨u, hu, hcon⟩, hs⟩)
      rw [this]
      simp
    · rw [if_neg (by simpa using ha)]
      exact ih htail

/-- C4: `save_transaction` with a record whose truthy `orderNumber` equals
that of an existing entry replaces that entry in place — same position, the
second call's fields — leaving (on a file with unique orderNumbers) exactly
one entry with that `orderNumber`; with a fresh `orderNumber` the record is
appended at the end. -/
theorem c4_save_replace_or_append (l : List Transaction) (t : Transaction)
    (s : String) (hord : t.order_number = some s) (hs : s ≠ "") :
    (∀ i, find_order_idx s l = some i →
        save_transaction l t = l.set i t ∧
          ((truthyOrders l).Nodup →
            (save_transaction l t).filter (fun r => r.order_number == some s) =
              [t])) ∧
    (find_order_idx s l = none → save_transaction l t = l ++ [t]) := by
  constructor
  · intro i hidx
    have hsave : save_transaction l t = l.set i t := by
      refine save_transaction_set ?_
      rw [hord]
      show (if s = "" then none else find_order_idx s l) = some i
      rw [if_neg hs, hidx]
    refine ⟨hsave, fun hnodup => ?_⟩
    rw [hsave]
    exact set_filter_single hord hidx (count_le_one_of_nodup hs hnodup)
  · intro hidx
    refine save_transaction_append ?_
    rw [hord]
    show (if s = "" then none else find_order_idx s l) = none
    rw [if_neg hs, hidx]

theorem c4_save_replace_or_append_witness :
    (save_transaction [txA, txB] txA2 = [txA2, txB] ∧
      (save_transaction [txA, txB] txA2).filter
        (fun r => r.order_number == some "A1") = [txA2]) ∧
    save_transaction [txB] txA = [txB, txA] := by
  refine ⟨?_, ?_⟩
  · obtain ⟨h1, h2⟩ :=
      (c4_save_replace_or_append [txA, txB] txA2 "A1" rfl (by decide)).1 0
        (by decide)
    exact ⟨h1, h2 (by decide)⟩
  · exact (c4_save_replace_or_append [txB] txA "A1" rfl (by decide)).2 (by decide)

/-- C9: a save whose record has an absent, `None` or empty `order_number`
is always appended — the falsy order number never triggers the in-place
replacement, even when an entry with the same falsy `order_number` already
sits in the file. -/
theorem c9_falsy_order_appends (l : List Transaction) (t : Transaction)
    (h : t.order_number = none ∨ t.order_number = some "") :
    save_transaction l t = l ++ [t] := by
  unfold save_transaction existing_index
  rcases h with h | h <;> rw [h]
  simp

/-- C9 witness data: a file that already holds a record with an absent
order number and one with an empty order number. -/
def txNoOrd : Transaction := ⟨none, none, "no-order"⟩

def txNoOrd2 : Transaction := ⟨none, none, "no-order-bis"⟩

def txEmptyOrd : Transaction := ⟨some "", none, "empty-order"⟩

def txEmptyOrd2 : Transaction := ⟨some "", some "NEW", "empty-order-bis"⟩

theorem c9_falsy_order_appends_witness :
    save_transaction [txNoOrd, txEmptyOrd] txNoOrd2 =
      [txNoOrd, txEmptyOrd, txNoOrd2] ∧
    save_transaction [txNoOrd, txEmptyOrd] txEmptyOrd2 =
      [txNoOrd, txEmptyOrd, txEmptyOrd2] :=
  ⟨c9_falsy_order_appends [txNoOrd, txEmptyOrd] txNoOrd2 (Or.inl rfl),
    c9_falsy_order_appends [txNoOrd, txEmptyOrd] txEmptyOrd2 (Or.inr rfl)⟩

/-! ### `update_used_orders` (transaction_storage.py lines 218-253, claim C5)

The store is a list of day files in the (arbitrary) enumeration order of
`base_dir.glob`. -/

/-- The per-file update loop (lines 237-242): set `order_status` on the
first record whose `order_number` matches, report whether one was found. -/
def update_one (order_number order_status : String) :
    List Transaction → List Transaction × Bool
  | [] => ([], false)
  | t :: ts =>
    if t.order_number == some order_number then
      ({ t with order_status := some order_status } :: ts, true)
    else
      let r := update_one order_number order_status ts
      (t :: r.1, r.2)

/-- `update_used_orders` (lines 227-253): walk the day files, rewrite the
first one containing the order and stop with `true`; `false` if none does.
The returned list is the resulting store contents. -/
def update_used_orders (order_number order_status : String) :
    List (List Transaction) → List (List Transaction) × Bool
  | [] => ([], false)
  | f :: fs =>
    let r := update_one order_number order_status f
    if r.2 then (r.1 :: fs, true)
    else
      let rest := update_used_orders order_number order_status fs
      (f :: rest.1, rest.2)

theorem update_one_no_match {o st : String} :
    ∀ {ts : List Transaction}, (∀ t ∈ ts, t.order_number ≠ some o) →
      update_one o st ts = (ts, false) := by
  intro ts
  induction ts with
  | nil => intro _; rfl
  | cons a as ih =>
    intro h
    rw [update_one]
    rw [if_neg (by simpa using h a (List.mem_cons_self _ _))]
    rw [ih (fun t ht => h t (List.mem_cons_of_mem _ ht))]

theorem update_one_found {o st : String} {t : Transaction}
    (ht : t.order_number = some o) :
    ∀ (pre post : List Transaction), (∀ u ∈ pre, u.order_number ≠ some o) →
      update_one o st (pre ++ t :: post) =
        (pre ++ { t with order_status := some st } :: post, true) := by
  intro pre
  induction pre with
  | nil =>
    intro post _
    rw [List.nil_append, update_one, if_pos (by simpa using ht)]
    rfl
  | cons a as ih =>
    intro post hpre
    rw [List.cons_append, update_one,
      if_neg (by simpa using hpre a (List.mem_cons_self _ _)),
      ih post (fun u hu => hpre u (List.mem_cons_of_mem _ hu))]
    rfl

/-- C5: `update_used_orders` scans the day files in enumeration order; on
the first file containing a record with the given order number it sets that
(first such) record's `orderStatus` to the given status, rewrites only that
file, stops, and returns `true`; when no file contains the order it returns
`false` with every file unchanged. -/
theorem c5_update_used_orders_spec (o st : String)
    (files : List (List Transaction)) :
    ((∀ f ∈ files, ∀ t ∈ f, t.order_number ≠ some o) →
        update_used_orders o st files = (files, false)) ∧
    (∀ (fpre : List (List Transaction)) (pre : List Transaction)
        (t : Transaction) (post : List Transaction)
        (fpost : List (List Transaction)),
      files = fpre ++ (pre ++ t :: post) :: fpost →
      (∀ g ∈ fpre, ∀ u ∈ g, u.order_number ≠ some o) →
      (∀ u ∈ pre, u.order_number ≠ some o) →
      t.order_number = some o →
      update_used_orders o st files =
        (fpre ++ (pre ++ { t with order_status := some st } :: post) :: fpost,
          true)) := by
  constructor
  · intro h
    induction files with
    | nil => rfl
    | cons f fs ih =>
      rw [update_used_orders]
      rw [update_one_no_match (h f (List.mem_cons_self _ _))]
      rw [ih (fun g hg => h g (List.mem_cons_of_mem _ hg))]
      rfl
  · intro fpre
    induction fpre generalizing files with
    | nil =>
      intro pre t post fpost hsplit hfpre hpre ht
      subst hsplit
      rw [List.nil_append, update_used_orders, update_one_found ht pre post hpre]
      rfl
    | cons g gs ih =>
      intro pre t post fpost hsplit hfpre hpre ht
      subst hsplit
      rw [List.cons_append, update_used_orders,
        update_one_no_match (hfpre g (List.mem_cons_self _ _))]
      rw [ih _ pre t post fpost rfl
        (fun g' hg' => hfpre g' (List.mem_cons_of_mem _ hg')) hpre ht]
      rfl

def txC : Transaction := ⟨some "C7", some "PENDING", "third"⟩

theorem c5_update_used_orders_spec_witness :
    update_used_orders "Z9" "DONE" [[txA], [txC]] = ([[txA], [txC]], false) ∧
    update_used_orders "C7" "DONE" [[txA], [txC]] =
      ([[txA], [⟨some "C7", some "DONE", "third"⟩]], true) :=
  ⟨(c5_update_used_orders_spec "Z9" "DONE" [[txA], [txC]]).1 (by decide),
    (c5_update_used_orders_spec "C7" "DONE" [[txA], [txC]]).2 [[txA]] [] txC []
      [] rfl (by decide) (by decide) rfl⟩

/-! ### Dates and the per-day file map -/

/-- A calendar date, as carried by Python `datetime` values at a fixed
time of day (the range and day-file logic only depends on the date part;
`datetime` comparisons at equal times coincide with this date order). -/
structure Date where
  year : Nat
  month : Nat
  day : Nat
deriving DecidableEq, Repr

/-- `datetime` order restricted to dates (lexicographic). -/
def dateLe (a b : Date) : Bool :=
  decide (a.year < b.year ∨ (a.year = b.year ∧ (a.month < b.month ∨
    (a.month = b.month ∧ a.day ≤ b.day))))

/-- Gregorian leap year, as implemented by Python's `datetime`. -/
def isLeapYear (y : Nat) : Bool :=
  (y % 4 == 0 && y % 100 != 0) || y % 400 == 0

/-- Number of days in a month; `datetime.replace(day=d)` raises
`ValueError` when `d` exceeds this. -/
def daysInMonth (y m : Nat) : Nat :=
  if m = 2 then (if isLeapYear y then 29 else 28)
  else if m = 4 ∨ m = 6 ∨ m = 9 ∨ m = 11 then 30
  else 31

theorem daysInMonth_le_31 (y m : Nat) : daysInMonth y m ≤ 31 := by
  unfold daysInMonth
  split
  · split <;> omega
  · split <;> omega

/-! ### `get_transactions_by_date` and `get_transactions_by_date_range`
(transaction_storage.py lines 105-134, claim C1)

`fs` maps a date to the contents of that day's file; a missing file (or a
file whose read fails, which the code turns into `[]`) is the empty list. -/

/-- `get_transactions_by_date` (lines 105-117): read one day file, empty
list when the file is absent or unreadable. -/
def get_transactions_by_date (fs : Date → List Transaction) (date : Date) :
    List Transaction :=
  fs date

/-- The `while current_date <= end_date` loop of
`get_transactions_by_date_range` (lines 122-130).  The step
`current_date.replace(day=current_date.day + 1)` raises `ValueError` when
`day + 1` exceeds the month length; `none` models that exception escaping
the loop. -/
def range_loop (fs : Date → List Transaction) (end_date : Date) :
    Date → List Transaction → Option (List Transaction)
  | current_date, acc =>
    if dateLe current_date end_date then
      let acc' := acc ++ get_transactions_by_date fs current_date
      if h : current_date.day + 1 ≤ daysInMonth current_date.year current_date.month then
        range_loop fs end_date
          ⟨current_date.year, current_date.month, current_date.day + 1⟩ acc'
      else none
    else some acc
termination_by current_date => 32 - current_date.day
decreasing_by
  have := daysInMonth_le_31 current_date.year current_date.month
  omega

/-- `get_transactions_by_date_range` (lines 119-134): run the day loop; the
`except` clause turns any exception into an empty result. -/
def get_transactions_by_date_range (fs : Date → List Transaction)
    (start_date end_date : Date) : List Transaction :=
  match range_loop fs end_date start_date [] with
  | some l => l
  | none => []

/-- The day file used by the C1 failing input: one record on 2024-01-31. -/
def c1Fs : Date → List Transaction :=
  fun d => if d = ⟨2024, 1, 31⟩ then [txA] else []

/-- C1 (code bug): `queryByRange(d, d)` is claimed to equal
`queryByDate(d)`, but for `d = 2024-01-31` — the last day of a month — the
loop's `current_date.replace(day=current_date.day + 1)` raises
`ValueError`, the blanket `except` returns `[]`, and the record stored on
that day is lost from the result. -/
theorem c1_queryByRange_month_end_bug :
    get_transactions_by_date_range c1Fs ⟨2024, 1, 31⟩ ⟨2024, 1, 31⟩ = [] ∧
    get_transactions_by_date c1Fs ⟨2024, 1, 31⟩ = [txA] := by
  constructor
  · have hloop :
        range_loop c1Fs ⟨2024, 1, 31⟩ ⟨2024, 1, 31⟩ [] = none := by
      unfold range_loop
      split
      · split
        · next h => exact absurd h (by decide)
        · rfl
      · next h =>
        exact absurd (by decide : dateLe ⟨2024, 1, 31⟩ ⟨2024, 1, 31⟩ = true) h
    unfold get_transactions_by_date_range
    rw [hloop]
  · rfl

/-! ### `get_transaction_by_order` (transaction_storage.py lines 136-156,
claim C6)

`store` maps a date to `some` day-file contents or `none` when the file
does not exist; `today` is the date `datetime.now()` falls on. -/

/-- `get_transaction_by_order`: look for the order only in today's file;
`none` when today's file is absent or holds no such record. -/
def get_transaction_by_order (store : Date → Option (List Transaction))
    (today : Date) (order_number : String) : Option Transaction :=
  match store today with
  | none => none
  | some transactions =>
    transactions.find? (fun t => t.order_number == some order_number)

/-- C6: `get_transaction_by_order` reads only the current day's file — its
result is unchanged when any other day's file changes; it returns the first
record with the given order number in today's file, and `none` when today's
file is absent or contains no such record (even if the record exists on
another day, which part one makes precise). -/
theorem c6_get_transaction_by_order_today_only
    (store store' : Date → Option (List Transaction)) (today : Date)
    (o : String) :
    (store today = store' today →
      get_transaction_by_order store today o =
        get_transaction_by_order store' today o) ∧
    (store today = none → get_transaction_by_order store today o = none) ∧
    (∀ ts, store today = some ts → (∀ t ∈ ts, t.order_number ≠ some o) →
      get_transaction_by_order store today o = none) ∧
    (∀ ts pre r post, store today = some ts → ts = pre ++ r :: post →
      (∀ u ∈ pre, u.order_number ≠ some o) → r.order_number = some o →
      get_transaction_by_order store today o = some r) := by
  refine ⟨?_, ?_, ?_, ?_⟩
  · intro h
    unfold get_transaction_by_order
    rw [h]
  · intro h
    unfold get_transaction_by_order
    rw [h]
  · intro ts hts hnone
    have hred : get_transaction_by_order store today o =
        ts.find? (fun t => t.order_number == some o) := by
      unfold get_transaction_by_order
      rw [hts]
    rw [hred, List.find?_eq_none]
    intro t ht
    simpa using hnone t ht
  · intro ts pre r post hts hsplit hpre hr
    have hred : get_transaction_by_order store today o =
        ts.find? (fun t => t.order_number == some o) := by
      unfold get_transaction_by_order
      rw [hts]
    rw [hred, hsplit]
    clear hsplit hred hts
    induction pre with
    | nil =>
      rw [List.nil_append, List.find?_cons]
      rw [show (r.order_number == some o) = true by simpa using hr]
    | cons a as ih =>
      rw [List.cons_append, List.find?_cons]
      rw [show (a.order_number == some o) = false by
        simpa using hpre a (List.mem_cons_self _ _)]
      exact ih (fun u hu => hpre u (List.mem_cons_of_mem _ hu))

/-- C6 witness store: order "X1" saved yesterday (2024-01-01) only; today
is 2024-01-02 with an unrelated record. -/
def c6Store : Date → Option (List Transaction) :=
  fun d =>
    if d = ⟨2024, 1, 2⟩ then some [txB]
    else if d = ⟨2024, 1, 1⟩ then some [⟨some "X1", none, "yesterday"⟩]
    else none

theorem c6_get_transaction_by_order_today_only_witness :
    get_transaction_by_order c6Store ⟨2024, 1, 2⟩ "X1" = none ∧
    (⟨some "X1", none, "yesterday"⟩ : Transaction) ∈
      (c6Store ⟨2024, 1, 1⟩).getD [] ∧
    get_transaction_by_order c6Store ⟨2024, 1, 2⟩ "B2" = some txB :=
  ⟨(c6_get_transaction_by_order_today_only c6Store c6Store ⟨2024, 1, 2⟩
      "X1").2.2.1 [txB] (by decide) (by decide),
    by decide,
    (c6_get_transaction_by_order_today_only c6Store c6Store ⟨2024, 1, 2⟩
      "B2").2.2.2 [txB] [] txB [] (by decide) rfl (by decide) rfl⟩

/-! ## Bank resolver (`src/module/generate_qrcode.py`)

### `rapidfuzz` scorer model

`fuzz.ratio` is the normalized Indel similarity
`100 * (1 - dist/(len1+len2))` with `dist = len1 + len2 - 2 * lcs`, i.e.
`200 * lcs / (len1 + len2)`; `fuzz.token_sort_ratio` applies it to the
whitespace-split, sorted, space-rejoined token lists.  Scores are exact
rationals here (rapidfuzz returns floats; all values arising are exact). -/

/-- One row of the longest-common-subsequence dynamic program: given the
previous row (against `bs` with a leading 0 cell) and the cell to the left,
produce the rest of the current row for character `a`. -/
def lcsNextRow (a : Char) : List Char → List Nat → Nat → List Nat
  | b :: bs, p0 :: p1 :: ps, left =>
    let cell := if a = b then p0 + 1 else max left p1
    cell :: lcsNextRow a bs (p1 :: ps) cell
  | _, _, _ => []

/-- Length of a longest common subsequence, by the standard row-by-row
dynamic program (structural, so that concrete scores evaluate). -/
def lcsLen (as bs : List Char) : Nat :=
  (as.foldl (fun row a => 0 :: lcsNextRow a bs row 0)
    (List.replicate (bs.length + 1) 0)).getLastD 0

/-- `fuzz.ratio`: normalized Indel similarity on a 0-100 scale
(`100` for two empty strings, as rapidfuzz returns). -/
def fuzz_ratio (s1 s2 : String) : ℚ :=
  if s1.data.length + s2.data.length = 0 then 100
  else mkRat (200 * lcsLen s1.data s2.data) (s1.data.length + s2.data.length)

/-- Whitespace, as Python `str.split()` splits on it. -/
def wsChar (c : Char) : Bool := c == ' ' || c == '\t' || c == '\n' || c == '\r'

/-- `str.split()`: split into maximal non-whitespace runs (accumulator holds
the current token reversed). -/
def splitTokensAux : List Char → List Char → List (List Char)
  | [], cur => if cur.isEmpty then [] else [cur.reverse]
  | c :: rest, cur =>
    if wsChar c then
      if cur.isEmpty then splitTokensAux rest []
      else cur.reverse :: splitTokensAux rest []
    else splitTokensAux rest (c :: cur)

/-- Code-point lexicographic order on strings (Python `<=` on `str`). -/
def listCharLe : List Char → List Char → Bool
  | [], _ => true
  | _ :: _, [] => false
  | a :: as, b :: bs =>
    if a.toNat < b.toNat then true
    else if b.toNat < a.toNat then false
    else listCharLe as bs

def insertSorted (a : List Char) : List (List Char) → List (List Char)
  | [] => [a]
  | b :: bs => if listCharLe a b then a :: b :: bs else b :: insertSorted a bs

/-- `sorted(...)` on token lists (insertion sort). -/
def sortTokens (l : List (List Char)) : List (List Char) := l.foldr insertSorted []

def joinSpace : List (List Char) → List Char
  | [] => []
  | [t] => t
  | t :: ts => t ++ ' ' :: joinSpace ts

/-- The token-sort preprocessing of `fuzz.token_sort_ratio`:
`" ".join(sorted(s.split()))`. -/
def token_sort (s : String) : String :=
  String.mk (joinSpace (sortTokens (splitTokensAux s.data [])))

/-- `fuzz.token_sort_ratio`. -/
def token_sort_ratio (s1 s2 : String) : ℚ :=
  fuzz_ratio (token_sort s1) (token_sort s2)

/-- `process.extractOne(query, choices, scorer=fuzz.token_sort_ratio)`:
highest score wins, the earliest choice winning ties; `None` only on an
empty choice list (no score cutoff is passed). -/
def extractOne (query : String) (choices : List String) :
    Option (String × ℚ) :=
  match choices with
  | [] => none
  | c :: cs =>
    some (cs.foldl
      (fun best c' =>
        let sc := token_sort_ratio query c'
        if best.2 < sc then (c', sc) else best)
      (c, token_sort_ratio query c))

/-- Python dict assignment `m[k] = v`: replace in place when the key is
present (keys keep first-insertion position, values are last-write-wins),
else append. -/
def dict_insert {α : Type} (m : List (String × α)) (k : String) (v : α) :
    List (String × α) :=
  if m.any (fun p => p.1 == k) then
    m.map (fun p => if p.1 == k then (k, v) else p)
  else m ++ [(k, v)]

/-- The dict comprehension of `find_best_match`
(generate_qrcode.py line 233): normalized form → original choice. -/
def build_norm_map (choices : List String) : List (String × String) :=
  choices.foldl (fun m c => dict_insert m (normalize_text (some c)) c) []

/-- `find_best_match` (generate_qrcode.py lines 228-244): normalize the
query and the choices, score with `token_sort_ratio`, map the winning
normalized form back to an original choice. -/
def find_best_match (query : String) (choices : List String) :
    Option (String × ℚ) :=
  let norm_query := normalize_text (some query)
  let norm_map := build_norm_map choices
  let norm_choices := norm_map.map (fun p => p.1)
  match extractOne norm_query norm_choices with
  | some (matched_norm, score) =>
    match norm_map.find? (fun p => p.1 == matched_norm) with
    | some p => some (p.2, score)
    | none => none
  | none => none

/-! ### The bank directory and `get_nganhang_id`
(generate_qrcode.py lines 145-214) -/

/-- A value of the persisted directory (`bank_list.json`), restricted to
the fields `get_nganhang_id` reads.  `none` models an absent or `null`
JSON field. -/
structure BankInfo where
  name : Option String
  code : Option String
  short_name : Option String
  bin : Option String
deriving DecidableEq, Repr

/-- The candidate strings of one record (lines 161-166): key, `name`,
`code`, `short_name`, with `dict.get(k, "")` defaults. -/
def get_candidates (key : String) (info : BankInfo) : List String :=
  [key, info.name.getD "", info.code.getD "", info.short_name.getD ""]

/-- Python's `needle in hay` on strings (contiguous substring). -/
def is_substring (needle hay : String) : Bool :=
  (List.range (hay.data.length + 1)).any
    (fun i => (hay.data.drop i).take needle.data.length == needle.data)

/-- Pass 1 (lines 155-158): exact normalized match against the keys;
`some bin` when a record matched (its `bin` field may itself be absent). -/
def pass1 (banks : List (String × BankInfo)) (norm_query : String) :
    Option (Option String) :=
  (banks.find? (fun p => normalize_text (some p.1) == norm_query)).map
    (fun p => p.2.bin)

def candidate_match (norm_query : String) (c : String) : Bool :=
  norm_query == normalize_text (some c) ||
    is_substring norm_query (normalize_text (some c))

/-- Pass 2 (lines 160-175): first record one of whose candidates equals or
contains the normalized query. -/
def pass2 (banks : List (String × BankInfo)) (norm_query : String) :
    Option (Option String) :=
  banks.findSome? (fun p =>
    if (get_candidates p.1 p.2).any (candidate_match norm_query) then
      some p.2.bin
    else none)

/-- The `set` union of all candidate strings (lines 178-185).  Python set
iteration order is unspecified; the model fixes first-occurrence order (the
claims proved below do not depend on this choice: their inputs have
pairwise distinct normalized candidates and a unique best score). -/
def all_candidates (banks : List (String × BankInfo)) : List String :=
  (banks.foldl (fun acc p => acc ++ get_candidates p.1 p.2) []).foldl
    (fun acc c => if acc.contains c then acc else acc ++ [c]) []

/-- The membership test `match_text in [name, code, short_name]` of the
fuzzy pass's owner loop (lines 194-198). -/
def fieldOwns (info : BankInfo) (match_text : String) : Bool :=
  match_text == info.name.getD "" || match_text == info.code.getD "" ||
    match_text == info.short_name.getD ""

/-- The owner back-mapping of the fuzzy pass (lines 193-199): first record
whose `name`, `code` or `short_name` equals the winning candidate — the
directory key is *not* consulted. -/
def owner_lookup (banks : List (String × BankInfo)) (match_text : String) :
    Option (Option String) :=
  banks.findSome? (fun p => if fieldOwns p.2 match_text then some p.2.bin else none)

/-- Body of the `try` block of `get_nganhang_id` (lines 150-204). -/
def resolve_body (banks : List (String × BankInfo)) (name_bank : String) :
    Option String :=
  let norm_query := normalize_text (some name_bank)
  match pass1 banks norm_query with
  | some bin => bin
  | none =>
    match pass2 banks norm_query with
    | some bin => bin
    | none =>
      match find_best_match name_bank (all_candidates banks) with
      | some (match_text, score) =>
        if 66 ≤ score then
          match owner_lookup banks match_text with
          | some bin => bin
          | none => none
        else none
      | none => none

/-- Outcome of opening and parsing `bank_list.json`: either the parsed
directory or one of the three failure modes the function catches. -/
inductive ReadResult where
  | ok : List (String × BankInfo) → ReadResult
  | fileNotFound : ReadResult
  | jsonDecodeError : ReadResult
  | otherError : ReadResult

/-- `get_nganhang_id` (lines 145-214): the `MB` → `MBBank` rewrite, then
the three matching passes; every read/parse failure is caught and turned
into `None`. -/
def get_nganhang_id (src : ReadResult) (name_bank : String) :
    Option String :=
  let name_bank := if normalize_text (some name_bank) = "mb" then "MBBank"
    else name_bank
  match src with
  | .ok banks => resolve_body banks name_bank
  | .fileNotFound => none
  | .jsonDecodeError => none
  | .otherError => none

/-- C7: when reading or parsing the bank directory fails — missing file,
malformed JSON, or any other error — `get_nganhang_id` returns `None` for
every query instead of raising (each `except` branch returns `None`). -/
theorem c7_read_failure_returns_none (name_bank : String) :
    get_nganhang_id ReadResult.fileNotFound name_bank = none ∧
    get_nganhang_id ReadResult.jsonDecodeError name_bank = none ∧
    get_nganhang_id ReadResult.otherError name_bank = none :=
  ⟨rfl, rfl, rfl⟩

/-! ### The fuzzy pass and the owner back-mapping (claim C2) -/

theorem owner_lookup_none {banks : List (String × BankInfo)} {m : String}
    (h : ∀ p ∈ banks, fieldOwns p.2 m = false) :
    owner_lookup banks m = none := by
  unfold owner_lookup
  induction banks with
  | nil => rfl
  | cons b bs ih =>
    rw [List.findSome?_cons]
    rw [h b (List.mem_cons_self _ _)]
    exact ih (fun p hp => h p (List.mem_cons_of_mem _ hp))

theorem owner_lookup_first {m : String} {p : String × BankInfo}
    (hp : fieldOwns p.2 m = true) :
    ∀ (bpre bpost : List (String × BankInfo)),
      (∀ q ∈ bpre, fieldOwns q.2 m = false) →
      owner_lookup (bpre ++ p :: bpost) m = some p.2.bin := by
  intro bpre
  induction bpre with
  | nil =>
    intro bpost _
    rw [List.nil_append]
    unfold owner_lookup
    rw [List.findSome?_cons, hp]
    rfl
  | cons b bs ih =>
    intro bpost hpre
    rw [List.cons_append]
    unfold owner_lookup at ih ⊢
    rw [List.findSome?_cons, hpre b (List.mem_cons_self _ _)]
    exact ih bpost (fun q hq => hpre q (List.mem_cons_of_mem _ hq))

/-- The directory of the C2 counterexample: a single record whose key
`"MBBank"` does not equal any of its `name`/`code`/`short_name` fields. -/
def cexInfo : BankInfo :=
  ⟨some "NH Quan doi", some "MB", some "MBB", some "970422"⟩

def cexBanks : List (String × BankInfo) := [("MBBank", cexInfo)]

/-- C2 counterexample: for the query `"MBBanc"` against `cexBanks`, the
exact-key and containment passes find nothing, the best token-sort score is
250/3 ≈ 83.3 ≥ 66 with winning candidate `"MBBank"`, and the record owning
that candidate (it is its directory key) has bin `"970422"` — yet
`get_nganhang_id` returns `None`, because the owner loop compares the
winner only against `name`/`code`/`short_name`, never the key.  This
refutes the claim that a ≥ 66 winner's owning record's bin is returned. -/
theorem c2_fuzzy_key_owner_counterexample :
    pass1 cexBanks (normalize_text (some "MBBanc")) = none ∧
    pass2 cexBanks (normalize_text (some "MBBanc")) = none ∧
    find_best_match "MBBanc" (all_candidates cexBanks) =
      some ("MBBank", mkRat 250 3) ∧
    (66 : ℚ) ≤ mkRat 250 3 ∧
    "MBBank" ∈ get_candidates "MBBank" cexInfo ∧
    cexInfo.bin = some "970422" ∧
    get_nganhang_id (.ok cexBanks) "MBBanc" = none :=
  ⟨by decide, by decide, by decide, by decide, by decide, by decide, by decide⟩

/-- C2 (amended): when the query (not subject to the MB rewrite) survives
the exact-key and containment passes and `find_best_match` yields winner
`m` with score `s`:
* if `s ≥ 66` and some record's `name`, `code` or `short_name` equals `m`,
  the first such record's bin is returned;
* if `s ≥ 66` but no record's `name`/`code`/`short_name` equals `m` (in
  particular when `m` occurs only as a directory key), not-found is
  returned;
* if `s < 66`, not-found is returned. -/
theorem c2_fuzzy_threshold_amended (banks : List (String × BankInfo))
    (q m : String) (s : ℚ) (hmb : normalize_text (some q) ≠ "mb")
    (h1 : pass1 banks (normalize_text (some q)) = none)
    (h2 : pass2 banks (normalize_text (some q)) = none)
    (hfb : find_best_match q (all_candidates banks) = some (m, s)) :
    (66 ≤ s → ∀ (bpre : List (String × BankInfo)) (p : String × BankInfo)
        (bpost : List (String × BankInfo)),
      banks = bpre ++ p :: bpost → (∀ q' ∈ bpre, fieldOwns q'.2 m = false) →
      fieldOwns p.2 m = true → get_nganhang_id (.ok banks) q = p.2.bin) ∧
    (66 ≤ s → (∀ p ∈ banks, fieldOwns p.2 m = false) →
      get_nganhang_id (.ok banks) q = none) ∧
    (s < 66 → get_nganhang_id (.ok banks) q = none) := by
  have hred : get_nganhang_id (.ok banks) q = resolve_body banks q := by
    simp only [get_nganhang_id]
    rw [if_neg hmb]
  have hbody : resolve_body banks q =
      (if 66 ≤ s then
        (match owner_lookup banks m with
          | some bin => bin
          | none => none)
      else none) := by
    simp only [resolve_body, h1, h2, hfb]
  refine ⟨?_, ?_, ?_⟩
  · intro hs bpre p bpost hsplit hpre hp
    rw [hred, hbody, if_pos hs, hsplit, owner_lookup_first hp bpre bpost hpre]
  · intro hs hnone
    rw [hred, hbody, if_pos hs, owner_lookup_none hnone]
  · intro hs
    rw [hred, hbody, if_neg (not_le.mpr hs)]

theorem c2_fuzzy_threshold_amended_witness :
    get_nganhang_id (.ok cexBanks) "NH Quan doj" = some "970422" ∧
    get_nganhang_id (.ok cexBanks) "zzz" = none := by
  constructor
  · exact (c2_fuzzy_threshold_amended cexBanks "NH Quan doj" "NH Quan doi"
      (mkRat 800 9) (by decide) (by decide) (by decide) (by decide)).1
      (by decide) [] ("MBBank", cexInfo) [] rfl (by simp) (by decide)
  · exact (c2_fuzzy_threshold_amended cexBanks "zzz" "MBBank" 0 (by decide)
      (by decide) (by decide) (by decide)).2.2 (by decide)

/-! ### `get_nganhang_api` (generate_qrcode.py lines 53-95, claim C10) -/

/-- One element of the `data` array fetched from the VietQR bank-list
endpoint, restricted to the fields `get_nganhang_api` reads. -/
structure ApiBank where
  id : Option Nat
  name : Option String
  code : Option String
  bin : Option String
  logo : Option String
  transferSupported : Option Nat
  lookupSupported : Option Nat
  shortName : Option String
  short_name : Option String
  support : Option Nat
  isTransfer : Option Nat
  swift_code : Option String
deriving DecidableEq, Repr

/-- A value of the `formatted_banks` dict written to `bank_list.json`. -/
structure FormattedBank where
  id : Option Nat
  name : Option String
  code : String
  bin : Option String
  logo : Option String
  transferSupported : Nat
  lookupSupported : Nat
  short_name : Option String
  support : Nat
  isTransfer : Nat
  swift_code : Option String
deriving DecidableEq, Repr

/-- The record built for one bank (lines 70-82), given its truthy code. -/
def format_bank (bank : ApiBank) (bank_code : String) : FormattedBank :=
  { id := bank.id, name := bank.name, code := bank_code, bin := bank.bin,
    logo := bank.logo, transferSupported := bank.transferSupported.getD 0,
    lookupSupported := bank.lookupSupported.getD 0,
    short_name := bank.short_name, support := bank.support.getD 0,
    isTransfer := bank.isTransfer.getD 0, swift_code := bank.swift_code }

/-- One iteration of the formatting loop (lines 67-82): banks whose `code`
is absent or empty are skipped; the rest are keyed by
`bank.get('shortName', bank_code)`. -/
def api_step (acc : List (String × FormattedBank)) (bank : ApiBank) :
    List (String × FormattedBank) :=
  match bank.code with
  | some bank_code =>
    if bank_code ≠ "" then
      dict_insert acc (bank.shortName.getD bank_code) (format_bank bank bank_code)
    else acc
  | none => acc

/-- The directory built by `get_nganhang_api` from the fetched `data`
array (the persisted `formatted_banks` mapping). -/
def get_nganhang_api (data : List ApiBank) : List (String × FormattedBank) :=
  data.foldl api_step []

theorem mem_dict_insert {α : Type} {m : List (String × α)} {k : String}
    {v : α} {p : String × α} (h : p ∈ dict_insert m k v) :
    p ∈ m ∨ p = (k, v) := by
  unfold dict_insert at h
  by_cases hk : m.any (fun q => q.1 == k)
  · rw [if_pos hk] at h
    rw [List.mem_map] at h
    obtain ⟨q, hq, hfq⟩ := h
    by_cases hqk : q.1 == k
    · rw [if_pos hqk] at hfq
      exact Or.inr hfq.symm
    · rw [if_neg hqk] at hfq
      exact Or.inl (hfq ▸ hq)
  · rw [if_neg hk] at h
    rcases List.mem_append.mp h with hm | hone
    · exact Or.inl hm
    · exact Or.inr (List.mem_singleton.mp hone)

theorem mem_api_step {acc : List (String × FormattedBank)} {bank : ApiBank}
    {p : String × FormattedBank} (h : p ∈ api_step acc bank) :
    p ∈ acc ∨ ∃ c, bank.code = some c ∧ c ≠ "" ∧
      p = (bank.shortName.getD c, format_bank bank c) := by
  cases hbc : bank.code with
  | none =>
    have heq : api_step acc bank = acc := by
      unfold api_step
      rw [hbc]
    rw [heq] at h
    exact Or.inl h
  | some c =>
    have heq : api_step acc bank =
        if c ≠ "" then
          dict_insert acc (bank.shortName.getD c) (format_bank bank c)
        else acc := by
      unfold api_step
      rw [hbc]
    rw [heq] at h
    by_cases hc : c ≠ ""
    · rw [if_pos hc] at h
      rcases mem_dict_insert h with hm | rfl
      · exact Or.inl hm
      · exact Or.inr ⟨c, rfl, hc, rfl⟩
    · rw [if_neg hc] at h
      exact Or.inl h

theorem mem_foldl_api_step {p : String × FormattedBank} :
    ∀ (data : List ApiBank) (acc : List (String × FormattedBank)),
      p ∈ data.foldl api_step acc →
      p ∈ acc ∨ ∃ b ∈ data, ∃ c, b.code = some c ∧ c ≠ "" ∧
        p = (b.shortName.getD c, format_bank b c) := by
  intro data
  induction data with
  | nil => intro acc h; exact Or.inl h
  | cons b bs ih =>
    intro acc h
    rw [List.foldl_cons] at h
    rcases ih (api_step acc b) h with hstep | ⟨b', hb', hrest⟩
    · rcases mem_api_step hstep with hm | ⟨c, hc, hcne, hp⟩
      · exact Or.inl hm
      · exact Or.inr ⟨b, List.mem_cons_self _ _, c, hc, hcne, hp⟩
    · exact Or.inr ⟨b', List.mem_cons_of_mem _ hb', hrest⟩

theorem foldl_api_step_filter :
    ∀ (data : List ApiBank) (acc : List (String × FormattedBank)),
      data.foldl api_step acc =
        (data.filter (fun b => b.code.getD "" != "")).foldl api_step acc := by
  intro data
  induction data with
  | nil => intro acc; rfl
  | cons b bs ih =>
    intro acc
    rw [List.foldl_cons, List.filter_cons]
    by_cases hb : b.code.getD "" != ""
    · rw [if_pos hb, List.foldl_cons, ih]
    · rw [if_neg hb]
      have hskip : api_step acc b = acc := by
        cases hbc : b.code with
        | none =>
          unfold api_step
          rw [hbc]
        | some c =>
          rw [hbc] at hb
          simp only [Option.getD_some, bne_iff_ne, ne_eq, not_not] at hb
          subst hb
          unfold api_step
          rw [hbc]
          rfl
      rw [hskip, ih]

/-- C10: the directory written by `get_nganhang_api` keeps exactly the
fetched banks whose `code` field is present and non-empty — banks without a
truthy code are dropped without effect on the output — and every persisted
value carries a non-empty `code` originating from its source bank. -/
theorem c10_api_directory_truthy_codes (data : List ApiBank) :
    (∀ p ∈ get_nganhang_api data,
      p.2.code ≠ "" ∧ ∃ b ∈ data, b.code = some p.2.code) ∧
    get_nganhang_api data =
      get_nganhang_api (data.filter (fun b => b.code.getD "" != "")) := by
  constructor
  · intro p hp
    rcases mem_foldl_api_step data [] hp with hnil | ⟨b, hb, c, hc, hcne, hpv⟩
    · cases hnil
    · subst hpv
      exact ⟨hcne, b, hb, hc⟩
  · exact foldl_api_step_filter data []

/-- C10 witness data: one bank with a truthy code, one without a code. -/
def apiGood : ApiBank :=
  { id := some 17, name := some "Ngan hang A", code := some "NHA",
    bin := some "970400", logo := none, transferSupported := some 1,
    lookupSupported := some 1, shortName := some "NHA Bank",
    short_name := some "nha", support := none, isTransfer := none,
    swift_code := none }

def apiNoCode : ApiBank :=
  { id := some 18, name := some "Ngan hang B", code := none,
    bin := some "970401", logo := none, transferSupported := none,
    lookupSupported := none, shortName := some "NHB Bank",
    short_name := none, support := none, isTransfer := none,
    swift_code := none }

theorem c10_api_directory_truthy_codes_witness :
    (("NHA Bank", format_bank apiGood "NHA").2.code ≠ "" ∧
      ∃ b ∈ [apiGood, apiNoCode],
        b.code = some ("NHA Bank", format_bank apiGood "NHA").2.code) ∧
    get_nganhang_api [apiGood, apiNoCode] =
      get_nganhang_api
        ([apiGood, apiNoCode].filter (fun b => b.code.getD "" != "")) :=
  ⟨(c10_api_directory_truthy_codes [apiGood, apiNoCode]).1
      ("NHA Bank", format_bank apiGood "NHA") (by decide),
    (c10_api_directory_truthy_codes [apiGood, apiNoCode]).2⟩

end AppBiance
